import Mathlib

/-!
Verification development for the pdf-navigator-mcp repository.

The core under verification is the PDF text-search engine of
src/pdf_navigator_mcp/pdf_navigator.py together with the result re-parsing of
src/pdf_navigator_mcp/server.py.  Python strings are embedded as lists of
characters (abbrev Text).  Note on the line separator: throughout
pdf_navigator.py the string literals are written with a doubled backslash
(for instance the join in search_pdf_text at line 137 and the split in
search_and_open at server.py line 167), so the separator the program renders
with and re-parses on is the literal two-character sequence
backslash followed by the letter n, not a newline character.  The embedding
reproduces that two-character separator (sepNL below) exactly.

The PDF decoding library (PyMuPDF) is an external collaborator: a decoded
document is modelled as its list of per-page extracted texts plus its outline.
-/

/-- Text models a Python str as its list of characters. -/
abbrev Text := List Char

/-- Backslash character, written by code point to keep escapes out of literals. -/
def bslash : Char := Char.ofNat 92

/-- Single-quote character (code point 39). -/
def squote : Char := Char.ofNat 39

/-- The line separator used by pdf_navigator.py: the two-character sequence
backslash, lowercase n (the source writes a doubled backslash inside its
string literals, so Python joins and splits on these two literal characters). -/
def sepNL : Text := [bslash, 'n']

/-- Whitespace test matching the characters Python str.split and str.strip
treat as whitespace in the ASCII range. -/
def isPySpace (c : Char) : Bool :=
  c.toNat = 32 || (9 ≤ c.toNat && c.toNat ≤ 13)

/-- ASCII model of Python str.lower applied to one character. -/
def pyLowerChar (c : Char) : Char :=
  if 65 ≤ c.toNat && c.toNat ≤ 90 then Char.ofNat (c.toNat + 32) else c

/-- Lower-casing of a whole text, modelling str.lower. -/
def pyLower (s : Text) : Text := s.map pyLowerChar

/-- Decimal digit character for d < 10. -/
def digitChar (d : Nat) : Char := Char.ofNat (48 + d)

/-- Decimal rendering of a natural number (fuel-structured so the kernel can
evaluate it); natText n models Python str(n) for n ≥ 0. -/
def natTextAux : Nat → Nat → Text
  | 0, _ => []
  | fuel + 1, n => if n < 10 then [digitChar n] else natTextAux fuel (n / 10) ++ [digitChar (n % 10)]

/-- Decimal rendering of a natural number, modelling Python str(n). -/
def natText (n : Nat) : Text := natTextAux (n + 1) n

/-- Decimal rendering of an integer, modelling Python str(z). -/
def intText (z : Int) : Text := if z < 0 then '-' :: natText z.natAbs else natText z.toNat

/-- Decimal value of a digit string (accumulator form). -/
def textToNatAux (acc : Nat) : Text → Nat
  | [] => acc
  | c :: r => textToNatAux (acc * 10 + (c.toNat - 48)) r

/-- Decimal value of a digit string. -/
def textToNat (s : Text) : Nat := textToNatAux 0 s

/-- Python haystack.find(needle, i) scanning: first index ≥ i at which needle
occurs, fuel-bounded so it is structural. -/
def findFromAux (needle hay : Text) : Nat → Nat → Option Nat
  | _, 0 => none
  | i, fuel + 1 => if needle.isPrefixOf (hay.drop i) then some i else findFromAux needle hay (i + 1) fuel

/-- Python str.find(needle, start): smallest position ≥ start where needle
occurs in hay, none when absent (Python returns -1 there).  As in Python an
empty needle is found at every position start ≤ length, and a start beyond the
text finds nothing. -/
def findFrom (needle hay : Text) (start : Nat) : Option Nat :=
  if hay.length < start then none else findFromAux needle hay start (hay.length + 1 - start)

/-- Substring containment test (Python needle in hay). -/
def hasSub (needle hay : Text) : Bool := (findFrom needle hay 0).isSome

/-- Python s.split(tok) for a non-empty separator tok, fuel-structured:
splits at each non-overlapping occurrence left to right, keeping empty chunks. -/
def pySplitOnF (tok : Text) : Nat → Text → List Text
  | 0, s => [s]
  | fuel + 1, s =>
    match findFrom tok s 0 with
    | none => [s]
    | some k => s.take k :: pySplitOnF tok fuel (s.drop (k + tok.length))

/-- Python s.split(tok) for a non-empty separator tok. -/
def pySplitOn (tok s : Text) : List Text :=
  if tok.isEmpty then [s] else pySplitOnF tok (s.length + 1) s

/-- Python s.strip(): remove leading and trailing whitespace. -/
def pyStrip (s : Text) : Text :=
  ((s.dropWhile isPySpace).reverse.dropWhile isPySpace).reverse

/-- Python s.split() with no argument, fuel-structured: split on whitespace
runs, discarding empty chunks. -/
def pySplitWsF : Nat → Text → List Text
  | 0, _ => []
  | fuel + 1, s =>
    match s.dropWhile isPySpace with
    | [] => []
    | c :: r =>
      (c :: r).takeWhile (fun x => !isPySpace x) ::
        pySplitWsF fuel ((c :: r).dropWhile (fun x => !isPySpace x))

/-- Python s.split() with no argument. -/
def pySplitWs (s : Text) : List Text := pySplitWsF (s.length + 1) s

/-- Python tok.join(parts). -/
def joinSep (tok : Text) : List Text → Text
  | [] => []
  | [x] => x
  | x :: y :: r => x ++ tok ++ joinSep tok (y :: r)

/-- Context clean-up of search_pdf_text lines 106-109: slice.strip() followed
by a single-space join of slice.split(). -/
def normalizeCtx (s : Text) : Text := joinSep [' '] (pySplitWs (pyStrip s))

/-- Configuration slice the search engine reads (config.py defaults:
search_context_chars 100, max_search_results 10). -/
structure SearchConfig where
  search_context_chars : Nat
  max_search_results : Nat
deriving DecidableEq

/-- Default configuration values from config.py DEFAULT_CONFIG. -/
def defaultConfig : SearchConfig := ⟨100, 10⟩

/-- One search hit as built in search_pdf_text lines 111-115. -/
structure SearchMatch where
  page : Nat
  context : Text
  position : Nat
deriving DecidableEq

/-- Context window extraction of search_pdf_text lines 103-109: window is
[max(0, pos - cc/2), min(len(text), pos + len(query) + cc/2)] (Nat subtraction
models the max with 0), then whitespace-normalised. -/
def mkContext (cfg : SearchConfig) (text : Text) (pos qlen : Nat) : Text :=
  let cs := pos - cfg.search_context_chars / 2
  let ce := min text.length (pos + qlen + cfg.search_context_chars / 2)
  normalizeCtx ((text.drop cs).take (ce - cs))

/-- Inner scan loop of search_pdf_text lines 97-121 for one page: repeated
find from position start, appending a match and advancing by one, breaking
once this page has recorded 3 matches.  cnt is the number of matches already
recorded for this page; fuel bounds the strictly increasing start positions. -/
def scanPageAux (cfg : SearchConfig) (q qlow text tlow : Text) (pageNo : Nat) :
    Nat → Nat → Nat → List SearchMatch
  | _, _, 0 => []
  | start, cnt, fuel + 1 =>
    match findFrom qlow tlow start with
    | none => []
    | some pos =>
      let m : SearchMatch := ⟨pageNo, mkContext cfg text pos q.length, pos⟩
      if 3 ≤ cnt + 1 then [m]
      else m :: scanPageAux cfg q qlow text tlow pageNo (pos + 1) (cnt + 1) fuel

/-- Matches found on a single page (search_pdf_text lines 91-121): the page
text and query are lower-cased for matching, contexts come from the
original-case text. -/
def scanPage (cfg : SearchConfig) (q text : Text) (pageNo : Nat) : List SearchMatch :=
  scanPageAux cfg q (pyLower q) text (pyLower text) pageNo 0 0 (text.length + 1)

/-- Page loop of search_pdf_text lines 89-125: pages in ascending order, the
global cap checked only after a page finishes (line 124). -/
def searchDocAux (cfg : SearchConfig) (q : Text) : List Text → Nat → List SearchMatch → List SearchMatch
  | [], _, acc => acc
  | t :: rest, pageNo, acc =>
    let acc2 := acc ++ scanPage cfg q t pageNo
    if cfg.max_search_results ≤ acc2.length then acc2
    else searchDocAux cfg q rest (pageNo + 1) acc2

/-- All matches search_pdf_text collects for a decoded document given as its
list of page texts (pages are 1-indexed in the result). -/
def searchDoc (cfg : SearchConfig) (q : Text) (pages : List Text) : List SearchMatch :=
  searchDocAux cfg q pages 1 []

/-- Literal token Page followed by a space, used by both the renderer and the
re-parser. -/
def pageTok : Text := ("Page ").data

/-- Numbered result line of search_pdf_text line 135. -/
def fmtLine (i : Nat) (m : SearchMatch) : Text :=
  natText i ++ (". ").data ++ pageTok ++ natText m.page ++ (": ...").data ++ m.context ++ ("...").data

/-- Numbered result lines from enumerate(results, 1). -/
def numberLines : Nat → List SearchMatch → List Text
  | _, [] => []
  | i, m :: r => fmtLine i m :: numberLines (i + 1) r

/-- Header element of search_pdf_text line 133 without its trailing separator. -/
def foundHeader (q f : Text) (n : Nat) : Text :=
  ("Found ").data ++ natText n ++ (" results for ").data ++ ([squote] ++ q ++ [squote]) ++
    (" in ").data ++ f ++ [':']

/-- Empty-result text of search_pdf_text line 130. -/
def noResultsText (q f : Text) : Text :=
  ("No results found for ").data ++ [squote] ++ q ++ [squote] ++ (" in ").data ++ f

/-- Rendering of search results (search_pdf_text lines 129-137): the header
element carries a trailing separator, then all elements are joined with the
separator. -/
def renderSearch (q f : Text) (ms : List SearchMatch) : Text :=
  if ms.isEmpty then noResultsText q f
  else joinSep sepNL ((foundHeader q f ms.length ++ sepNL) :: numberLines 1 ms)

/-- Full search_pdf_text on a successfully opened document. -/
def search_pdf_text (cfg : SearchConfig) (fname query : Text) (pages : List Text) : Text :=
  renderSearch query fname (searchDoc cfg query pages)

/-- Python int(s) on a string: surrounding whitespace stripped, an optional
sign, then one or more digits (digit-grouping underscores are not modelled;
no input in this development contains them). -/
def pyInt (s : Text) : Option Int :=
  let v := pyStrip s
  match v with
  | [] => none
  | c :: r =>
    if c = '-' then (if !r.isEmpty && r.all Char.isDigit then some (-(textToNat r : Int)) else none)
    else if c = '+' then (if !r.isEmpty && r.all Char.isDigit then some (textToNat r : Int) else none)
    else if (c :: r).all Char.isDigit then some (textToNat (c :: r) : Int) else none

/-- Result-line addressing of search_and_open (server.py lines 166-178):
split the rendered text on the separator, keep lines whose stripped form
starts with the index followed by a dot, then on the first such line take the
text between the first occurrence of the Page token and the next colon and
parse it as an integer.  none models both the result-not-found return and the
caught IndexError / ValueError. -/
def addressOf (t : Text) (i : Nat) : Option Int :=
  let lines := pySplitOn sepNL t
  match lines.filter (fun l => (natText i ++ ['.']).isPrefixOf (pyStrip l)) with
  | [] => none
  | l :: _ =>
    match (pySplitOn pageTok l).tail with
    | [] => none
    | p :: _ => pyInt ((pySplitOn [':'] p).headD [])

/-- Page-read outcome from the PDF library: ok is the extracted text,
error models an exception raised by the library during extraction. -/
abbrev PageRead := Except Text Text

/-- Labeled page block of read_pdf_text line 182 (the block header and the raw
page text are separated by the two-character separator written in the source). -/
def pageBlock (n : Nat) (t : Text) : Text :=
  ("--- Page ").data ++ natText n ++ (" ---").data ++ sepNL ++ t

/-- Extraction loop of read_pdf_text lines 177-182 over 0-indexed page
numbers, propagating a library exception; pages whose stripped text is empty
are skipped. -/
def collectBlocks (pages : List PageRead) : List Nat → Except Text (List Text)
  | [] => .ok []
  | k :: r =>
    match pages.getD k (.ok []) with
    | .error e => .error e
    | .ok t =>
      match collectBlocks pages r with
      | .error e => .error e
      | .ok rest => .ok (if (pyStrip t).isEmpty then rest else pageBlock (k + 1) t :: rest)

/-- Out-of-range message for the start page (read_pdf_text line 164). -/
def startOutOfRange (s total : Int) : Text :=
  ("Error: Start page ").data ++ intText s ++ (" out of range (1-").data ++ intText total ++ [')']

/-- Out-of-range message for the end page (read_pdf_text line 170). -/
def endOutOfRange (e total : Int) : Text :=
  ("Error: End page ").data ++ intText e ++ (" out of range (1-").data ++ intText total ++ [')']

/-- Invalid-range message of read_pdf_text line 174. -/
def invalidRangeMsg (s e : Int) : Text :=
  ("Error: Start page ").data ++ intText s ++ (" cannot be greater than end page ").data ++ intText e

/-- No-text message of read_pdf_text line 187. -/
def noTextMsg (s e : Int) (f : Text) : Text :=
  ("No text found in pages ").data ++ intText s ++ ['-'] ++ intText e ++ (" of ").data ++ f

/-- Execution model of read_pdf_text lines 157-192 on a successfully opened
document, returning the produced text together with whether the document
handle was closed before returning.  Every explicit error return (lines
162-174) closes the handle first; a library exception during page extraction
is caught at line 191 and returned without a close (there is no finally). -/
def read_pdf_text_exec (f : Text) (pages : List PageRead) (startPage : Int)
    (endPage? : Option Int) : Text × Bool :=
  let total : Int := (pages.length : Int)
  if startPage < 1 || total < startPage then (startOutOfRange startPage total, true)
  else
    let e := endPage?.getD total
    if endPage?.isSome && (e < 1 || total < e) then (endOutOfRange e total, true)
    else if e < startPage then (invalidRangeMsg startPage e, true)
    else
      match collectBlocks pages (List.range' (startPage.toNat - 1) (e.toNat - (startPage.toNat - 1))) with
      | .error ex => (("Error reading PDF: ").data ++ ex, false)
      | .ok parts =>
        if parts.isEmpty then (noTextMsg startPage e f, true)
        else (joinSep (sepNL ++ sepNL) parts, true)

/-- read_pdf_text on a decoded document whose page extractions all succeed. -/
def read_pdf_text (f : Text) (pages : List Text) (startPage : Int) (endPage? : Option Int) : Text :=
  (read_pdf_text_exec f (pages.map Except.ok) startPage endPage?).1

/-- read_pdf_page (pdf_navigator.py line 204): a single delegation to
read_pdf_text with the page number as both ends of the range. -/
def read_pdf_page (f : Text) (pages : List Text) (pageNumber : Int) : Text :=
  read_pdf_text f pages pageNumber (some pageNumber)

/-- Execution model of the page loop of search_pdf_text with the document
handle tracked: a library exception while extracting a page propagates out of
the loop before the close at line 127 runs. -/
def searchExecAux (cfg : SearchConfig) (q : Text) :
    List PageRead → Nat → List SearchMatch → Except Text (List SearchMatch)
  | [], _, acc => .ok acc
  | .error e :: _, _, _ => .error e
  | .ok t :: rest, pageNo, acc =>
    let acc2 := acc ++ scanPage cfg q t pageNo
    if cfg.max_search_results ≤ acc2.length then .ok acc2
    else searchExecAux cfg q rest (pageNo + 1) acc2

/-- Execution model of search_pdf_text lines 84-140 on a successfully opened
document: result text paired with whether the handle was closed before
returning.  Success and the empty-result return pass the close at line 127;
the except handler at line 139 returns without closing. -/
def search_pdf_text_exec (cfg : SearchConfig) (fname q : Text) (pages : List PageRead) :
    Text × Bool :=
  match searchExecAux cfg q pages 1 [] with
  | .error e => (("Error searching PDF: ").data ++ e, false)
  | .ok results => (renderSearch q fname results, true)

/-- Decoded document as handed over by the PDF library: per-page extracted
texts and the outline (level, title, target page) entries. -/
structure FitzDoc where
  pages : List Text
  toc : List (Nat × Text × Nat)

/-- Modelled from PyMuPDF's documented handle semantics: len(doc), that is
Document.page_count, raises ValueError with message document closed once
doc.close() has run; closed records whether close has been called. -/
def fitzLen (closed : Bool) (d : FitzDoc) : Except Text Nat :=
  if closed then .error (("document closed").data) else .ok d.pages.length

/-- Bullet character (code point 8226) of get_pdf_structure line 249. -/
def bulletChar : Char := Char.ofNat 8226

/-- Outline entry line of get_pdf_structure lines 247-249: indentation of two
spaces per level below the first, bullet, title, page annotation. -/
def tocEntryLine (e : Nat × Text × Nat) : Text :=
  List.replicate (2 * (e.1 - 1)) ' ' ++ [bulletChar, ' '] ++ e.2.1 ++
    (" (Page ").data ++ natText e.2.2 ++ [')']

/-- Table-of-contents section elements (lines 246-249); the section header
element itself begins with the separator characters written in the source
literal. -/
def tocSection (toc : List (Nat × Text × Nat)) : List Text :=
  (sepNL ++ ("Table of Contents:").data) :: toc.map tocEntryLine

/-- Page summary of get_pdf_structure lines 231-237: the page text is split on
the separator written in the source, lines stripped, empties dropped, the
first three joined by single spaces, truncated to 100 characters and always
ellipsis-suffixed; none when the summary is empty. -/
def pageSummary (pageNo : Nat) (t : Text) : Option Text :=
  let nonEmpty := ((pySplitOn sepNL t).map pyStrip).filter (fun l => !l.isEmpty)
  let summary := joinSep [' '] (nonEmpty.take 3)
  if summary.isEmpty then none
  else some (pageTok ++ natText pageNo ++ (": ").data ++ summary.take 100 ++ ("...").data)

/-- All non-empty page summaries with 1-indexed page numbers. -/
def pageSummaries (pages : List Text) : List Text :=
  (List.enumFrom 1 pages).filterMap (fun pt => pageSummary pt.1 pt.2)

/-- Page-summaries section elements (lines 251-253). -/
def sumSection (sums : List Text) : List Text :=
  (sepNL ++ ("Page Summaries:").data) :: sums

/-- Error wrapper of get_pdf_structure line 258. -/
def structureError (e : Text) : Text := ("Error reading PDF structure: ").data ++ e

/-- Embedding of get_pdf_structure lines 219-258 on a successfully opened
document, with the handle state made explicit: the outline and the page
summaries are read while the handle is open (lines 223-237), doc.close() runs
at line 239, and only then does line 243 evaluate len(doc) for the
Total Pages element, which the library refuses on a closed handle; the
resulting ValueError is caught at line 257. -/
def get_pdf_structure (fname : Text) (d : FitzDoc) : Text :=
  match fitzLen false d with
  | .error e => structureError e
  | .ok _ =>
    let toc := d.toc
    let sums := pageSummaries d.pages
    match fitzLen true d with
    | .error e => structureError e
    | .ok total =>
      joinSep sepNL
        (((("PDF Structure: ").data ++ fname) :: (("Total Pages: ").data ++ natText total) :: []) ++
          (if toc.isEmpty then [] else tocSection toc) ++
          (if sums.isEmpty then [] else sumSection sums))

/-- Python value supplied for a page-number style parameter: an int or a str. -/
inductive PyVal where
  | vint (i : Int)
  | vstr (s : Text)
deriving DecidableEq

/-- Digit-string test modelling Python str.isdigit on ASCII digits. -/
def isDigitsB (s : Text) : Bool := !s.isEmpty && s.all Char.isDigit

/-- Embedding of safe_int (server.py lines 10-41): an int is returned as-is; a
string is stripped, rejected when empty, accepted when it is all digits or a
leading minus followed by digits, rejected otherwise; error carries the
message kind only. -/
def safe_int (v : PyVal) : Except Text Int :=
  match v with
  | .vint i => .ok i
  | .vstr s0 =>
    let s := pyStrip s0
    if s.isEmpty then .error (("cannot be empty").data)
    else if isDigitsB s || (s.headD ' ' = '-' && isDigitsB (s.drop 1)) then
      .ok ((pyInt s).getD 0)
    else .error (("must be a valid integer").data)

/-- Outcome of search_and_open (server.py lines 147-185), separating the four
returns: the searched text passed through unchanged by the guard at line 163,
a successful parse forwarded to open_pdf_page with the recovered page, the
result-index-not-found message, and the caught parse failure. -/
inductive SAOResult where
  | unchanged (t : Text)
  | forwarded (page : Int)
  | indexNotFound
  | parseFailed
deriving DecidableEq

/-- Literal token Error of the guard at server.py line 163. -/
def errorTok : Text := ("Error").data

/-- Literal token of the no-results guard at server.py line 163. -/
def noResultsTok : Text := ("No results found").data

/-- Embedding of search_and_open (server.py lines 147-185) on a decoded
document: runs the search, returns the rendered text unchanged whenever it
contains the Error token or the no-results token anywhere, and otherwise
re-parses the rendering to recover a page and forward it. -/
def search_and_open (cfg : SearchConfig) (fname q : Text) (pages : List Text)
    (resultIndex : Nat) : SAOResult :=
  let sr := search_pdf_text cfg fname q pages
  if hasSub noResultsTok sr || hasSub errorTok sr then .unchanged sr
  else
    match (pySplitOn sepNL sr).filter
        (fun l => (natText resultIndex ++ ['.']).isPrefixOf (pyStrip l)) with
    | [] => .indexNotFound
    | l :: _ =>
      match (pySplitOn pageTok l).tail with
      | [] => .parseFailed
      | p :: _ =>
        match pyInt ((pySplitOn [':'] p).headD []) with
        | none => .parseFailed
        | some z => .forwarded z

/-! Basic character and decimal-rendering lemmas. -/

theorem toNat_ofNat_of_valid {n : Nat} (h : n < 55296) : (Char.ofNat n).toNat = n := by
  unfold Char.ofNat
  rw [dif_pos (Or.inl h)]
  rfl

theorem uint32_le_iff_toNat {a b : UInt32} : a ≤ b ↔ a.toNat ≤ b.toNat := by
  rw [UInt32.le_def, BitVec.le_def]
  exact Iff.rfl

theorem char_isDigit_iff {c : Char} : c.isDigit = true ↔ 48 ≤ c.toNat ∧ c.toNat ≤ 57 := by
  have h48 : (48 : UInt32).toNat = 48 := rfl
  have h57 : (57 : UInt32).toNat = 57 := rfl
  simp only [Char.isDigit, Bool.and_eq_true, decide_eq_true_eq, ge_iff_le,
    uint32_le_iff_toNat, h48, h57]
  exact Iff.rfl

theorem digitChar_isDigit {d : Nat} (h : d < 10) : (digitChar d).isDigit = true := by
  have ht : (digitChar d).toNat = 48 + d := toNat_ofNat_of_valid (by omega)
  rw [char_isDigit_iff, ht]
  omega

theorem ne_of_isDigit_of_not {c x : Char} (hc : c.isDigit = true) (hx : x.isDigit = false) :
    c ≠ x := by
  intro he
  rw [he, hx] at hc
  exact Bool.false_ne_true hc

theorem isDigit_toNat_bounds {c : Char} (hc : c.isDigit = true) :
    48 ≤ c.toNat ∧ c.toNat ≤ 57 := char_isDigit_iff.mp hc

theorem isPySpace_of_isDigit {c : Char} (hc : c.isDigit = true) : isPySpace c = false := by
  have := isDigit_toNat_bounds hc
  simp only [isPySpace, Bool.or_eq_false_iff, decide_eq_false_iff_not, Bool.and_eq_false_iff]
  omega

theorem natTextAux_ne_nil {fuel n : Nat} (h : 0 < fuel) : natTextAux fuel n ≠ [] := by
  cases fuel with
  | zero => omega
  | succ m =>
    unfold natTextAux
    split
    · exact List.cons_ne_nil _ _
    · exact List.append_ne_nil_of_right_ne_nil _ (List.cons_ne_nil _ _)

theorem natText_ne_nil (n : Nat) : natText n ≠ [] := natTextAux_ne_nil (Nat.succ_pos n)

theorem natTextAux_all_digits : ∀ fuel n, ∀ c ∈ natTextAux fuel n, c.isDigit = true := by
  intro fuel
  induction fuel with
  | zero => intro n c hc; simp [natTextAux] at hc
  | succ m ih =>
    intro n c hc
    unfold natTextAux at hc
    split at hc
    · rw [List.mem_singleton] at hc
      subst hc
      exact digitChar_isDigit (by omega)
    · rw [List.mem_append] at hc
      rcases hc with hc | hc
      · exact ih _ c hc
      · rw [List.mem_singleton] at hc
        subst hc
        exact digitChar_isDigit (Nat.mod_lt _ (by omega))

theorem natText_all_digits (n : Nat) : ∀ c ∈ natText n, c.isDigit = true :=
  natTextAux_all_digits (n + 1) n

theorem natText_head_digit (n : Nat) :
    ∃ d rest, natText n = d :: rest ∧ d.isDigit = true := by
  cases h : natText n with
  | nil => exact absurd h (natText_ne_nil n)
  | cons d rest =>
    refine ⟨d, rest, rfl, natText_all_digits n d ?_⟩
    rw [h]; exact List.mem_cons_self _ _

theorem textToNatAux_append (xs ys : Text) : ∀ acc,
    textToNatAux acc (xs ++ ys) = textToNatAux (textToNatAux acc xs) ys := by
  induction xs with
  | nil => intro acc; rfl
  | cons c r ih =>
    intro acc
    show textToNatAux (acc * 10 + (c.toNat - 48)) (r ++ ys) =
      textToNatAux (textToNatAux (acc * 10 + (c.toNat - 48)) r) ys
    exact ih _

theorem textToNatAux_natTextAux : ∀ fuel n, n < 10 ^ fuel → ∀ acc,
    textToNatAux acc (natTextAux fuel n) = acc * 10 ^ (natTextAux fuel n).length + n := by
  intro fuel
  induction fuel with
  | zero =>
    intro n hn acc
    have hz : n = 0 := by
      have h1 : (10 : Nat) ^ 0 = 1 := pow_zero 10
      omega
    subst hz
    show textToNatAux acc [] = acc * 10 ^ (List.length ([] : Text)) + 0
    rw [List.length_nil, pow_zero, Nat.mul_one, Nat.add_zero]
    rfl
  | succ m ih =>
    intro n hn acc
    unfold natTextAux
    split
    · next h =>
      have hd : (digitChar n).toNat = 48 + n := toNat_ofNat_of_valid (by omega)
      show acc * 10 + ((digitChar n).toNat - 48) = acc * 10 ^ (List.length [digitChar n]) + n
      rw [hd, List.length_singleton, pow_one]
      omega
    · next h =>
      push_neg at h
      have hdiv : n / 10 < 10 ^ m := by
        rw [Nat.div_lt_iff_lt_mul (by omega)]
        calc n < 10 ^ (m + 1) := hn
        _ = 10 ^ m * 10 := by rw [pow_succ]
      have hmodlt : n % 10 < 10 := Nat.mod_lt n (by omega)
      have hd : (digitChar (n % 10)).toNat = 48 + n % 10 := toNat_ofNat_of_valid (by omega)
      rw [textToNatAux_append, ih _ hdiv acc]
      have hmod : 10 * (n / 10) + n % 10 = n := Nat.div_add_mod n 10
      show (acc * 10 ^ (natTextAux m (n / 10)).length + n / 10) * 10 +
          ((digitChar (n % 10)).toNat - 48) =
        acc * 10 ^ (List.length (natTextAux m (n / 10) ++ [digitChar (n % 10)])) + n
      rw [hd, List.length_append, List.length_singleton, pow_succ]
      have hring : (acc * 10 ^ (natTextAux m (n / 10)).length + n / 10) * 10 + (48 + n % 10 - 48) =
          acc * (10 ^ (natTextAux m (n / 10)).length * 10) + (10 * (n / 10) + n % 10) := by
        have h48 : 48 + n % 10 - 48 = n % 10 := by omega
        rw [h48]
        ring
      rw [hring, hmod]

theorem textToNat_natText (n : Nat) : textToNat (natText n) = n := by
  have hpow : n < 10 ^ (n + 1) := by
    calc n < 10 ^ n := Nat.lt_pow_self (by omega) n
    _ ≤ 10 ^ (n + 1) := Nat.pow_le_pow_right (by omega) (Nat.le_succ n)
  have := textToNatAux_natTextAux (n + 1) n hpow 0
  simpa [textToNat, natText] using this

theorem natText_inj {a b : Nat} (h : natText a = natText b) : a = b := by
  have ha := textToNat_natText a
  have hb := textToNat_natText b
  rw [h] at ha
  omega

/-! Characterisation of the find scan and of substring occurrences. -/

theorem isPrefixOf_nil_right {tok : Text} (h : tok ≠ []) : tok.isPrefixOf ([] : Text) = false := by
  cases tok with
  | nil => exact absurd rfl h
  | cons c r => rfl

theorem isPrefixOf_head {c : Char} {tk w : Text} (h : (c :: tk).isPrefixOf w = true) :
    w.head? = some c := by
  cases w with
  | nil => exact absurd h (by simp [List.isPrefixOf])
  | cons d r =>
    simp only [List.isPrefixOf, Bool.and_eq_true, beq_iff_eq] at h
    rw [h.1]
    rfl

theorem findFromAux_some {needle hay : Text} : ∀ fuel i pos,
    findFromAux needle hay i fuel = some pos →
    i ≤ pos ∧ needle.isPrefixOf (hay.drop pos) = true ∧
      ∀ j, i ≤ j → j < pos → needle.isPrefixOf (hay.drop j) = false := by
  intro fuel
  induction fuel with
  | zero => intro i pos h; exact absurd h (by simp [findFromAux])
  | succ m ih =>
    intro i pos h
    unfold findFromAux at h
    split at h
    · next hp =>
      cases h
      exact ⟨Nat.le_refl _, hp, fun j h1 h2 => absurd (Nat.lt_of_le_of_lt h1 h2) (Nat.lt_irrefl _)⟩
    · next hp =>
      obtain ⟨h1, h2, h3⟩ := ih (i + 1) pos h
      refine ⟨by omega, h2, fun j hj1 hj2 => ?_⟩
      rcases Nat.eq_or_lt_of_le hj1 with he | hlt
      · subst he
        exact Bool.not_eq_true _ ▸ (by simpa using hp)
      · exact h3 j hlt hj2

theorem findFromAux_complete {needle hay : Text} : ∀ fuel i k,
    i ≤ k → k < i + fuel → needle.isPrefixOf (hay.drop k) = true →
    (∀ j, i ≤ j → j < k → needle.isPrefixOf (hay.drop j) = false) →
    findFromAux needle hay i fuel = some k := by
  intro fuel
  induction fuel with
  | zero => intro i k h1 h2; omega
  | succ m ih =>
    intro i k h1 h2 hpre hmin
    unfold findFromAux
    rcases Nat.eq_or_lt_of_le h1 with he | hlt
    · subst he
      rw [if_pos hpre]
    · rw [if_neg (by rw [hmin i (Nat.le_refl i) hlt]; exact Bool.false_ne_true)]
      exact ih (i + 1) k hlt (by omega) hpre (fun j hj1 hj2 => hmin j (by omega) hj2)

theorem findFrom_some {needle hay : Text} {pos : Nat} (h : findFrom needle hay 0 = some pos) :
    needle.isPrefixOf (hay.drop pos) = true ∧
      ∀ j, j < pos → needle.isPrefixOf (hay.drop j) = false := by
  unfold findFrom at h
  rw [if_neg (by omega)] at h
  obtain ⟨_, h2, h3⟩ := findFromAux_some _ 0 pos h
  exact ⟨h2, fun j hj => h3 j (Nat.zero_le j) hj⟩

theorem prefix_lt_length {needle hay : Text} {k : Nat} (hne : needle ≠ [])
    (h : needle.isPrefixOf (hay.drop k) = true) : k < hay.length := by
  by_contra hk
  rw [List.drop_eq_nil_iff.mpr (by omega)] at h
  rw [isPrefixOf_nil_right hne] at h
  exact Bool.false_ne_true h

theorem findFrom_eq_some {needle hay : Text} {k : Nat} (hk : k ≤ hay.length)
    (hpre : needle.isPrefixOf (hay.drop k) = true)
    (hmin : ∀ j, j < k → needle.isPrefixOf (hay.drop j) = false) :
    findFrom needle hay 0 = some k := by
  unfold findFrom
  rw [if_neg (by omega)]
  exact findFromAux_complete _ 0 k (Nat.zero_le k) (by omega) hpre
    (fun j _ hj => hmin j hj)

theorem findFrom_none {needle hay : Text} (hne : needle ≠ [])
    (h : findFrom needle hay 0 = none) :
    ∀ j, needle.isPrefixOf (hay.drop j) = false := by
  intro j
  by_contra hc
  rw [Bool.not_eq_false] at hc
  classical
  have hex : ∃ j3, needle.isPrefixOf (hay.drop j3) = true := ⟨j, hc⟩
  have hkp : needle.isPrefixOf (hay.drop (Nat.find hex)) = true := Nat.find_spec hex
  have hkmin : ∀ j2, j2 < Nat.find hex → needle.isPrefixOf (hay.drop j2) = false := by
    intro j2 hj2
    have hm := Nat.find_min hex hj2
    revert hm
    cases hpp : needle.isPrefixOf (hay.drop j2) <;> simp
  have hs := findFrom_eq_some (Nat.le_of_lt (prefix_lt_length hne hkp)) hkp hkmin
  rw [h] at hs
  exact Option.noConfusion hs

theorem hasSub_false {needle hay : Text} (hne : needle ≠ []) (h : hasSub needle hay = false) :
    ∀ j, needle.isPrefixOf (hay.drop j) = false := by
  unfold hasSub at h
  cases hf : findFrom needle hay 0 with
  | some pos => rw [hf] at h; exact absurd h (by simp)
  | none => exact findFrom_none hne hf

/-! Occurrence-freeness of the separator and its behaviour under append. -/

/-- noOcc s states that the separator occurs nowhere in s. -/
def noOcc (s : Text) : Prop := ∀ j, sepNL.isPrefixOf (s.drop j) = false

theorem noOcc_of_hasSub {s : Text} (h : hasSub sepNL s = false) : noOcc s :=
  hasSub_false (by decide) h

theorem noOcc_findFrom {s : Text} (h : noOcc s) : findFrom sepNL s 0 = none := by
  cases hf : findFrom sepNL s 0 with
  | none => rfl
  | some pos =>
    have := (findFrom_some hf).1
    rw [h pos] at this
    exact absurd this (by simp)

theorem head_drop_getElem (s : Text) (j : Nat) : (s.drop j).head? = s[j]? := by
  rw [List.head?_eq_getElem?, List.getElem?_drop, Nat.add_zero]

theorem prefix_sep_iff (s : Text) (j : Nat) :
    sepNL.isPrefixOf (s.drop j) = true ↔ s[j]? = some bslash ∧ s[j + 1]? = some 'n' := by
  have h0 : s[j]? = (s.drop j).head? := (head_drop_getElem s j).symm
  have h1 : s[j + 1]? = (s.drop j)[1]? := by rw [List.getElem?_drop]
  rw [h0, h1]
  cases hd : s.drop j with
  | nil => simp [sepNL, List.isPrefixOf]
  | cons c r =>
    cases r with
    | nil => simp [sepNL, List.isPrefixOf]
    | cons d r2 =>
      show ([bslash, 'n'].isPrefixOf (c :: d :: r2)) = true ↔ _
      simp only [List.isPrefixOf, Bool.and_eq_true, beq_iff_eq, List.head?_cons,
        List.getElem?_cons_succ, List.getElem?_cons_zero, Option.some_inj, Bool.and_true,
        List.isPrefixOf_nil_left]
      constructor
      · rintro ⟨hb, hn⟩
        exact ⟨hb.symm, hn.symm⟩
      · rintro ⟨hb, hn⟩
        exact ⟨hb.symm, hn.symm⟩

theorem noOcc_iff_pairs (s : Text) :
    noOcc s ↔ ∀ j, ¬(s[j]? = some bslash ∧ s[j + 1]? = some 'n') := by
  constructor
  · intro h j hc
    have := (prefix_sep_iff s j).mpr hc
    rw [h j] at this
    exact absurd this (by simp)
  · intro h j
    by_contra hc
    rw [Bool.not_eq_false] at hc
    exact h j ((prefix_sep_iff s j).mp hc)

theorem noOcc_nil : noOcc [] := by
  intro j
  rw [List.drop_eq_nil_of_eq_nil rfl]
  decide

theorem noOcc_append {a b : Text} (ha : noOcc a) (hb : noOcc b)
    (hbd : a.getLast? ≠ some bslash ∨ b.head? ≠ some 'n') : noOcc (a ++ b) := by
  rw [noOcc_iff_pairs]
  intro j hc
  obtain ⟨hj1, hj2⟩ := hc
  by_cases h1 : j + 1 < a.length
  · rw [List.getElem?_append_left (by omega)] at hj1
    rw [List.getElem?_append_left h1] at hj2
    exact (noOcc_iff_pairs a).mp ha j ⟨hj1, hj2⟩
  · by_cases h2 : j < a.length
    · have hj : j + 1 = a.length := by omega
      rw [List.getElem?_append_left h2] at hj1
      rw [List.getElem?_append_right (by omega)] at hj2
      have hlast : a.getLast? = some bslash := by
        rw [List.getLast?_eq_getElem?]
        have : a.length - 1 = j := by omega
        rw [this]
        exact hj1
      have hhead : b.head? = some 'n' := by
        rw [List.head?_eq_getElem?]
        have : j + 1 - a.length = 0 := by omega
        rw [this] at hj2
        exact hj2
      rcases hbd with hbd | hbd
      · exact hbd hlast
      · exact hbd hhead
    · rw [List.getElem?_append_right (by omega)] at hj1
      rw [List.getElem?_append_right (by omega)] at hj2
      have harith : j + 1 - a.length = (j - a.length) + 1 := by omega
      rw [harith] at hj2
      exact (noOcc_iff_pairs b).mp hb (j - a.length) ⟨hj1, hj2⟩

theorem noOcc_append_head {a b : Text} (ha : noOcc a) (hb : noOcc b)
    (hbd : b.head? ≠ some 'n') : noOcc (a ++ b) :=
  noOcc_append ha hb (Or.inr hbd)

theorem noOcc_append_last {a b : Text} (ha : noOcc a) (hb : noOcc b)
    (had : a.getLast? ≠ some bslash) : noOcc (a ++ b) :=
  noOcc_append ha hb (Or.inl had)

theorem noOcc_of_forall_ne {s : Text} (h : ∀ c ∈ s, c ≠ bslash) : noOcc s := by
  rw [noOcc_iff_pairs]
  intro j hc
  exact h bslash (List.getElem?_mem hc.1) rfl

theorem noOcc_of_all_digits {s : Text} (h : ∀ c ∈ s, c.isDigit = true) : noOcc s :=
  noOcc_of_forall_ne (fun c hc => ne_of_isDigit_of_not (h c hc) (by decide))

theorem noOcc_natText (n : Nat) : noOcc (natText n) :=
  noOcc_of_all_digits (natText_all_digits n)

/-! Strip and split lemmas. -/

theorem dropWhile_eq_self_of_head {p : Char → Bool} {s : Text}
    (h : ∀ c, s.head? = some c → p c = false) : s.dropWhile p = s := by
  cases s with
  | nil => rfl
  | cons c r => exact List.dropWhile_cons_of_neg (by rw [h c rfl]; exact Bool.false_ne_true)

theorem pyStrip_eq_self {s : Text}
    (hh : ∀ c, s.head? = some c → isPySpace c = false)
    (hl : ∀ c, s.getLast? = some c → isPySpace c = false) : pyStrip s = s := by
  unfold pyStrip
  rw [dropWhile_eq_self_of_head hh]
  rw [dropWhile_eq_self_of_head (by rw [List.head?_reverse]; exact hl)]
  exact List.reverse_reverse s

theorem pyStrip_eq_self_of_all {s : Text} (h : ∀ c ∈ s, isPySpace c = false) : pyStrip s = s := by
  refine pyStrip_eq_self (fun c hc => ?_) (fun c hc => ?_)
  · exact h c (by rw [List.head?_eq_getElem?] at hc; exact List.getElem?_mem hc)
  · exact h c (by rw [List.getLast?_eq_getElem?] at hc; exact List.getElem?_mem hc)

theorem pyStrip_nil : pyStrip [] = [] := rfl

theorem pySplitOnF_fuel {tok : Text} (htok : tok ≠ []) : ∀ f1 f2 s, s.length < f1 →
    s.length < f2 → pySplitOnF tok f1 s = pySplitOnF tok f2 s := by
  intro f1
  induction f1 with
  | zero => intro f2 s h1; omega
  | succ m ih =>
    intro f2 s h1 h2
    cases f2 with
    | zero => omega
    | succ m2 =>
      unfold pySplitOnF
      cases hf : findFrom tok s 0 with
      | none => rfl
      | some k =>
        have hpre := (findFrom_some hf).1
        have hk : k < s.length := prefix_lt_length htok hpre
        have hd : (s.drop (k + tok.length)).length = s.length - (k + tok.length) :=
          List.length_drop _ _
        have htl : 0 < tok.length := List.length_pos.mpr htok
        show s.take k :: pySplitOnF tok m (s.drop (k + tok.length)) =
          s.take k :: pySplitOnF tok m2 (s.drop (k + tok.length))
        rw [ih m2 _ (by omega) (by omega)]

theorem pySplitOn_eq {tok : Text} (htok : tok ≠ []) (s : Text) :
    pySplitOn tok s = match findFrom tok s 0 with
      | none => [s]
      | some k => s.take k :: pySplitOn tok (s.drop (k + tok.length)) := by
  conv_lhs => rw [pySplitOn]
  rw [if_neg (by simp [List.isEmpty_iff, htok])]
  show pySplitOnF tok (s.length + 1) s = _
  unfold pySplitOnF
  cases hf : findFrom tok s 0 with
  | none => rfl
  | some k =>
    have hpre := (findFrom_some hf).1
    have hk : k < s.length := prefix_lt_length htok hpre
    have htl : 0 < tok.length := List.length_pos.mpr htok
    have hd : (s.drop (k + tok.length)).length = s.length - (k + tok.length) :=
      List.length_drop _ _
    show s.take k :: pySplitOnF tok s.length (s.drop (k + tok.length)) =
      s.take k :: pySplitOn tok (s.drop (k + tok.length))
    rw [pySplitOn]
    rw [if_neg (by simp [List.isEmpty_iff, htok])]
    rw [pySplitOnF_fuel htok s.length ((s.drop (k + tok.length)).length + 1)
      (s.drop (k + tok.length)) (by omega) (by omega)]

theorem pySplitOn_noOcc {s : Text} (h : noOcc s) : pySplitOn sepNL s = [s] := by
  rw [pySplitOn_eq (by decide) s, noOcc_findFrom h]

theorem pySplitOn_sep_append {a t : Text} (ha : noOcc a) :
    pySplitOn sepNL (a ++ sepNL ++ t) = a :: pySplitOn sepNL t := by
  have hfind : findFrom sepNL (a ++ sepNL ++ t) 0 = some a.length := by
    refine findFrom_eq_some ?_ ?_ ?_
    · simp only [List.append_assoc, List.length_append]
      omega
    · rw [List.append_assoc, List.drop_left]
      rw [List.isPrefixOf_iff_prefix]
      exact List.prefix_append _ _
    · intro j hj
      by_contra hc
      rw [Bool.not_eq_false, prefix_sep_iff] at hc
      obtain ⟨h1, h2⟩ := hc
      rw [List.append_assoc] at h1 h2
      rw [List.getElem?_append_left (by omega)] at h1
      by_cases hj2 : j + 1 < a.length
      · rw [List.getElem?_append_left hj2] at h2
        exact absurd ((noOcc_iff_pairs a).mp ha) (by push_neg; exact ⟨j, h1, h2⟩)
      · have hj1 : j + 1 = a.length := by omega
        rw [List.getElem?_append_right (by omega)] at h2
        have : (sepNL ++ t)[j + 1 - a.length]? = some bslash := by
          rw [hj1, Nat.sub_self]
          rfl
        rw [this] at h2
        have : bslash = 'n' := by injection h2
        exact absurd this (by decide)
  rw [pySplitOn_eq (by decide), hfind]
  show (a ++ sepNL ++ t).take a.length ::
      pySplitOn sepNL ((a ++ sepNL ++ t).drop (a.length + sepNL.length)) =
    a :: pySplitOn sepNL t
  have htake : (a ++ sepNL ++ t).take a.length = a := by
    rw [List.append_assoc]
    exact List.take_left a (sepNL ++ t)
  have hdrop : (a ++ sepNL ++ t).drop (a.length + sepNL.length) = t := by
    rw [List.append_assoc]
    have h1 : (a ++ (sepNL ++ t)).drop (a.length + sepNL.length) =
        (sepNL ++ t).drop sepNL.length := List.drop_append sepNL.length
    rw [h1]
    exact List.drop_left sepNL t
  rw [htake, hdrop]

theorem pySplitOn_joinSep : ∀ parts : List Text, (∀ p ∈ parts, noOcc p) → parts ≠ [] →
    pySplitOn sepNL (joinSep sepNL parts) = parts := by
  intro parts
  induction parts with
  | nil => intro _ h; exact absurd rfl h
  | cons x rest ih =>
    intro hno _
    cases rest with
    | nil => exact pySplitOn_noOcc (hno x (List.mem_cons_self _ _))
    | cons y r2 =>
      show pySplitOn sepNL (x ++ sepNL ++ joinSep sepNL (y :: r2)) = x :: y :: r2
      rw [pySplitOn_sep_append (hno x (List.mem_cons_self _ _))]
      rw [ih (fun p hp => hno p (List.mem_cons_of_mem _ hp)) (List.cons_ne_nil _ _)]

/-! First-occurrence decomposition lemmas used to re-trace the parser. -/

theorem isPrefixOf_head_of {tok w : Text} {c : Char} (hc : tok.head? = some c)
    (h : tok.isPrefixOf w = true) : w.head? = some c := by
  cases tok with
  | nil => exact absurd hc (by simp)
  | cons d tk =>
    have hd : d = c := by injection hc
    subst hd
    exact isPrefixOf_head h

theorem findFrom_marker {tok u v : Text} {c : Char} (hc : tok.head? = some c)
    (hu : ∀ x ∈ u, x ≠ c) : findFrom tok (u ++ tok ++ v) 0 = some u.length := by
  refine findFrom_eq_some ?_ ?_ ?_
  · simp only [List.append_assoc, List.length_append]
    omega
  · rw [List.append_assoc, List.drop_left, List.isPrefixOf_iff_prefix]
    exact List.prefix_append _ _
  · intro j hj
    by_contra hcc
    rw [Bool.not_eq_false] at hcc
    have hh := isPrefixOf_head_of hc hcc
    rw [head_drop_getElem] at hh
    rw [List.append_assoc, List.getElem?_append_left hj] at hh
    exact hu c (List.getElem?_mem hh) rfl

theorem pySplitOn_marker {tok u v : Text} {c : Char} (htok : tok ≠ [])
    (hc : tok.head? = some c) (hu : ∀ x ∈ u, x ≠ c) :
    pySplitOn tok (u ++ tok ++ v) = u :: pySplitOn tok v := by
  rw [pySplitOn_eq htok, findFrom_marker hc hu]
  show (u ++ tok ++ v).take u.length ::
      pySplitOn tok ((u ++ tok ++ v).drop (u.length + tok.length)) = u :: pySplitOn tok v
  congr 1
  · rw [List.append_assoc]
    exact List.take_left u (tok ++ v)
  · congr 1
    rw [List.append_assoc]
    rw [List.drop_append tok.length]
    exact List.drop_left tok v

theorem digits_dot_discrim : ∀ a b u : Text, (∀ c ∈ a, c.isDigit = true) →
    (∀ c ∈ b, c.isDigit = true) → (a ++ ['.']) <+: (b ++ '.' :: u) → a = b := by
  intro a
  induction a with
  | nil =>
    intro b u _ hb h
    cases b with
    | nil => rfl
    | cons d b2 =>
      rw [List.nil_append, List.cons_append, List.cons_prefix_cons] at h
      have hd := hb d (List.mem_cons_self _ _)
      rw [← h.1] at hd
      exact absurd hd (by decide)
  | cons c a2 ih =>
    intro b u ha hb h
    cases b with
    | nil =>
      rw [List.cons_append, List.nil_append, List.cons_prefix_cons] at h
      have hc := ha c (List.mem_cons_self _ _)
      rw [h.1] at hc
      exact absurd hc (by decide)
    | cons d b2 =>
      rw [List.cons_append, List.cons_append, List.cons_prefix_cons] at h
      rw [h.1]
      rw [ih b2 u (fun x hx => ha x (List.mem_cons_of_mem _ hx))
        (fun x hx => hb x (List.mem_cons_of_mem _ hx)) h.2]

theorem natText_dot_prefix_iff (i k : Nat) (rest : Text) :
    ((natText i ++ ['.']).isPrefixOf (natText k ++ '.' :: rest)) = decide (i = k) := by
  by_cases h : i = k
  · subst h
    rw [decide_eq_true rfl]
    rw [List.isPrefixOf_iff_prefix]
    rw [List.append_cons (natText i) '.' rest]
    exact List.prefix_append _ _
  · rw [decide_eq_false h]
    by_contra hc
    rw [Bool.not_eq_false, List.isPrefixOf_iff_prefix] at hc
    exact h (natText_inj
      (digits_dot_discrim _ _ _ (natText_all_digits i) (natText_all_digits k) hc))

theorem pyInt_natText (p : Nat) : pyInt (natText p) = some (p : Int) := by
  obtain ⟨d, rest, hdr, hdig⟩ := natText_head_digit p
  unfold pyInt
  rw [pyStrip_eq_self_of_all (fun c hc => isPySpace_of_isDigit (natText_all_digits p c hc))]
  rw [hdr]
  show (if d = '-' then _ else if d = '+' then _ else
    if (d :: rest).all Char.isDigit then some ((textToNat (d :: rest) : Nat) : Int) else none) = _
  rw [if_neg (ne_of_isDigit_of_not hdig (by decide))]
  rw [if_neg (ne_of_isDigit_of_not hdig (by decide))]
  rw [if_pos (by
    rw [List.all_eq_true]
    intro c hc
    exact natText_all_digits p c (by rw [hdr]; exact hc))]
  rw [← hdr, textToNat_natText]

/-! Shape lemmas for the rendered header and result lines. -/

instance : Inhabited SearchMatch := ⟨⟨0, [], 0⟩⟩

theorem fmtLine_eq (k : Nat) (m : SearchMatch) :
    fmtLine k m = natText k ++ ('.' :: ' ' :: 'P' :: 'a' :: 'g' :: 'e' :: ' ' ::
      (natText m.page ++ (':' :: ' ' :: '.' :: '.' :: '.' ::
        (m.context ++ ['.', '.', '.'])))) := by
  unfold fmtLine pageTok
  simp only [List.append_assoc]
  rfl

theorem fmtLine_eq2 (k : Nat) (m : SearchMatch) :
    fmtLine k m = (natText k ++ ['.', ' ']) ++ pageTok ++
      (natText m.page ++ ':' :: (' ' :: '.' :: '.' :: '.' ::
        (m.context ++ ['.', '.', '.']))) := by
  unfold fmtLine pageTok
  simp only [List.append_assoc]
  rfl

theorem head?_fmtLine (k : Nat) (m : SearchMatch) :
    ∃ d, (fmtLine k m).head? = some d ∧ d.isDigit = true := by
  obtain ⟨d, rest, hdr, hdig⟩ := natText_head_digit k
  refine ⟨d, ?_, hdig⟩
  rw [fmtLine_eq, hdr]
  rfl

theorem getLast?_fmtLine (k : Nat) (m : SearchMatch) : (fmtLine k m).getLast? = some '.' := by
  unfold fmtLine
  rw [List.getLast?_append]
  rfl

theorem pyStrip_fmtLine (k : Nat) (m : SearchMatch) : pyStrip (fmtLine k m) = fmtLine k m := by
  obtain ⟨d, hd, hdig⟩ := head?_fmtLine k m
  refine pyStrip_eq_self (fun c hc => ?_) (fun c hc => ?_)
  · rw [hd] at hc
    injection hc with h2
    rw [← h2]
    exact isPySpace_of_isDigit hdig
  · rw [getLast?_fmtLine] at hc
    injection hc with h2
    rw [← h2]
    decide

theorem test_fmtLine (i k : Nat) (m : SearchMatch) :
    ((natText i ++ ['.']).isPrefixOf (pyStrip (fmtLine k m))) = decide (i = k) := by
  rw [pyStrip_fmtLine, fmtLine_eq]
  exact natText_dot_prefix_iff i k _

theorem foundHeader_eq (q f : Text) (n : Nat) :
    foundHeader q f n = 'F' :: 'o' :: 'u' :: 'n' :: 'd' :: ' ' :: (natText n ++
      (' ' :: 'r' :: 'e' :: 's' :: 'u' :: 'l' :: 't' :: 's' :: ' ' :: 'f' :: 'o' :: 'r' :: ' ' ::
        (squote :: (q ++ (squote :: ' ' :: 'i' :: 'n' :: ' ' :: (f ++ [':'])))))) := by
  unfold foundHeader
  simp only [List.append_assoc]
  rfl

theorem head?_foundHeader (q f : Text) (n : Nat) : (foundHeader q f n).head? = some 'F' := by
  rw [foundHeader_eq]
  rfl

theorem getLast?_foundHeader (q f : Text) (n : Nat) :
    (foundHeader q f n).getLast? = some ':' := by
  unfold foundHeader
  exact List.getLast?_concat _

theorem pyStrip_foundHeader (q f : Text) (n : Nat) :
    pyStrip (foundHeader q f n) = foundHeader q f n := by
  refine pyStrip_eq_self (fun c hc => ?_) (fun c hc => ?_)
  · rw [head?_foundHeader] at hc
    injection hc with h2
    rw [← h2]
    decide
  · rw [getLast?_foundHeader] at hc
    injection hc with h2
    rw [← h2]
    decide

theorem test_foundHeader (i : Nat) (q f : Text) (n : Nat) :
    ((natText i ++ ['.']).isPrefixOf (pyStrip (foundHeader q f n))) = false := by
  rw [pyStrip_foundHeader]
  by_contra hc
  rw [Bool.not_eq_false] at hc
  obtain ⟨d, rest, hdr, hdig⟩ := natText_head_digit i
  have hh := isPrefixOf_head_of (c := d) (by rw [hdr]; rfl) hc
  rw [head?_foundHeader] at hh
  injection hh with h2
  rw [← h2] at hdig
  exact absurd hdig (by decide)

theorem test_blank (i : Nat) :
    ((natText i ++ ['.']).isPrefixOf (pyStrip ([] : Text))) = false := by
  rw [pyStrip_nil]
  obtain ⟨d, rest, hdr, _⟩ := natText_head_digit i
  rw [hdr]
  rfl

/-! Separator-freeness of rendered lines and the filter computation. -/

theorem head?_ne_n_natText (n : Nat) : ∀ d, (natText n).head? = some d → d ≠ 'n' := by
  intro d hd he
  obtain ⟨d2, rest, hdr, hdig⟩ := natText_head_digit n
  rw [hdr] at hd
  injection hd with h2
  rw [h2, he] at hdig
  exact absurd hdig (by decide)

theorem noOcc_foundHeader {q f : Text} (hq : noOcc q) (hf : noOcc f) (n : Nat) :
    noOcc (foundHeader q f n) := by
  unfold foundHeader
  obtain ⟨d, rest, hdr, hdig⟩ := natText_head_digit n
  refine noOcc_append_head ?_ ?_ (by decide)
  · refine noOcc_append_last ?_ hf ?_
    · refine noOcc_append_head ?_ (noOcc_of_hasSub (by decide)) (by decide)
      · refine noOcc_append_head ?_ ?_ ?_
        · refine noOcc_append_head ?_ ?_ ?_
          · refine noOcc_append_head (noOcc_of_hasSub (by decide)) ?_ ?_
            · exact noOcc_of_all_digits (natText_all_digits n)
            · rw [hdr]
              intro hc
              injection hc with h2
              exact head?_ne_n_natText n d (by rw [hdr]; rfl) h2
          · exact noOcc_of_hasSub (by decide)
          · decide
        · refine noOcc_append_head ?_ (noOcc_of_hasSub (by decide)) (by decide)
          refine noOcc_append_last (noOcc_of_hasSub (by decide)) hq (by decide)
        · show (([squote] ++ q ++ [squote]).head? ≠ some 'n')
          rw [List.append_assoc]
          rw [List.head?_append_of_ne_nil _ (by decide)]
          decide
    · rw [List.getLast?_append]
      show (some ' ' : Option Char) ≠ some bslash
      decide
  · exact noOcc_of_hasSub (by decide)

theorem noOcc_fmtLine {m : SearchMatch} (hm : noOcc m.context) (k : Nat) :
    noOcc (fmtLine k m) := by
  unfold fmtLine
  refine noOcc_append_head ?_ (noOcc_of_hasSub (by decide)) (by decide)
  refine noOcc_append_last ?_ hm ?_
  · refine noOcc_append_head ?_ (noOcc_of_hasSub (by decide)) (by decide)
    refine noOcc_append_head ?_ ?_ ?_
    · refine noOcc_append_head ?_ (noOcc_of_hasSub (by decide)) (by decide)
      refine noOcc_append_head (noOcc_of_all_digits (natText_all_digits k))
        (noOcc_of_hasSub (by decide)) (by decide)
    · exact noOcc_of_all_digits (natText_all_digits m.page)
    · obtain ⟨d, rest, hdr, hdig⟩ := natText_head_digit m.page
      rw [hdr]
      intro hc
      injection hc with h2
      exact head?_ne_n_natText m.page d (by rw [hdr]; rfl) h2
  · rw [List.getLast?_append]
    show (some '.' : Option Char) ≠ some bslash
    decide

theorem numberLines_noOcc {ms : List SearchMatch} (h : ∀ m ∈ ms, noOcc m.context) :
    ∀ k, ∀ l ∈ numberLines k ms, noOcc l := by
  induction ms with
  | nil => intro k l hl; simp [numberLines] at hl
  | cons m r ih =>
    intro k l hl
    rw [numberLines, List.mem_cons] at hl
    rcases hl with hl | hl
    · subst hl
      exact noOcc_fmtLine (h m (List.mem_cons_self _ _)) k
    · exact ih (fun m2 hm2 => h m2 (List.mem_cons_of_mem _ hm2)) (k + 1) l hl

theorem filter_numberLines_nil {ms : List SearchMatch} : ∀ k i, i < k →
    (numberLines k ms).filter
      (fun l => (natText i ++ ['.']).isPrefixOf (pyStrip l)) = [] := by
  induction ms with
  | nil => intro k i _; rfl
  | cons m r ih =>
    intro k i hik
    show List.filter _ (fmtLine k m :: numberLines (k + 1) r) = []
    rw [List.filter_cons]
    have ht : ((natText i ++ ['.']).isPrefixOf (pyStrip (fmtLine k m))) = false := by
      rw [test_fmtLine]
      exact decide_eq_false (by omega)
    rw [ht]
    simp only [Bool.false_eq_true, if_false]
    exact ih (k + 1) i (by omega)

theorem filter_numberLines_eq {ms : List SearchMatch} : ∀ k i, k ≤ i → i < k + ms.length →
    (numberLines k ms).filter
      (fun l => (natText i ++ ['.']).isPrefixOf (pyStrip l)) =
      [fmtLine i (ms.getD (i - k) default)] := by
  induction ms with
  | nil => intro k i h1 h2; simp at h2; omega
  | cons m r ih =>
    intro k i h1 h2
    show List.filter _ (fmtLine k m :: numberLines (k + 1) r) = _
    rw [List.filter_cons]
    by_cases hik : i = k
    · subst hik
      rw [test_fmtLine, decide_eq_true rfl]
      simp only [if_true]
      rw [filter_numberLines_nil (i + 1) i (by omega)]
      rw [Nat.sub_self]
      rfl
    · have hlt : k < i := Nat.lt_of_le_of_ne h1 (fun he => hik he.symm)
      rw [test_fmtLine, decide_eq_false hik]
      simp only [Bool.false_eq_true, if_false]
      rw [ih (k + 1) i (by omega) (by simp at h2 ⊢; omega)]
      have : i - k = (i - (k + 1)) + 1 := by omega
      rw [this]
      rfl

/-! Assembly of the rendering and addressing round trip. -/

theorem joinSep_header (h : Text) (L : List Text) :
    joinSep sepNL ((h ++ sepNL) :: L) = joinSep sepNL (h :: ([] : Text) :: L) := by
  cases L with
  | nil =>
    show h ++ sepNL = h ++ sepNL ++ joinSep sepNL [([] : Text)]
    show h ++ sepNL = h ++ sepNL ++ []
    rw [List.append_nil]
  | cons x r =>
    show h ++ sepNL ++ sepNL ++ joinSep sepNL (x :: r) =
      h ++ sepNL ++ (([] : Text) ++ sepNL ++ joinSep sepNL (x :: r))
    simp [List.append_assoc]

theorem renderSearch_lines {q f : Text} {ms : List SearchMatch} (hms : ms ≠ [])
    (hq : noOcc q) (hf : noOcc f) (hctx : ∀ m ∈ ms, noOcc m.context) :
    pySplitOn sepNL (renderSearch q f ms) =
      foundHeader q f ms.length :: ([] : Text) :: numberLines 1 ms := by
  unfold renderSearch
  rw [if_neg (by simp [List.isEmpty_iff, hms])]
  rw [joinSep_header]
  exact pySplitOn_joinSep _ (by
    intro p hp
    rw [List.mem_cons, List.mem_cons] at hp
    rcases hp with hp | hp | hp
    · subst hp
      exact noOcc_foundHeader hq hf ms.length
    · subst hp
      exact noOcc_nil
    · exact numberLines_noOcc hctx 1 p hp) (List.cons_ne_nil _ _)

theorem pySplitOn_ne_nil (tok s : Text) : pySplitOn tok s ≠ [] := by
  unfold pySplitOn
  split
  · exact List.cons_ne_nil _ _
  · show pySplitOnF tok (s.length + 1) s ≠ []
    unfold pySplitOnF
    cases findFrom tok s 0 with
    | none => exact List.cons_ne_nil _ _
    | some k => exact List.cons_ne_nil _ _

theorem pageChunk (p : Nat) (w : Text) :
    ∃ w2, (pySplitOn pageTok (natText p ++ ':' :: w)).headD [] = natText p ++ ':' :: w2 := by
  cases hf : findFrom pageTok (natText p ++ ':' :: w) 0 with
  | none =>
    rw [pySplitOn_eq (by decide), hf]
    exact ⟨w, rfl⟩
  | some k =>
    have hpre := (findFrom_some hf).1
    have hPchar := isPrefixOf_head_of (c := 'P') (show pageTok.head? = some 'P' by rfl) hpre
    rw [head_drop_getElem] at hPchar
    have hk : (natText p).length + 1 ≤ k := by
      by_contra hklt
      push_neg at hklt
      by_cases hk2 : k < (natText p).length
      · rw [List.getElem?_append_left hk2] at hPchar
        have hdig := natText_all_digits p 'P' (List.getElem?_mem hPchar)
        exact absurd hdig (by decide)
      · have hke : k = (natText p).length := by omega
        rw [List.getElem?_append_right (by omega)] at hPchar
        rw [hke, Nat.sub_self, List.getElem?_cons_zero] at hPchar
        injection hPchar with h2
        exact absurd h2 (by decide)
    obtain ⟨j, hj⟩ : ∃ j, k = (natText p).length + (j + 1) :=
      ⟨k - (natText p).length - 1, by omega⟩
    rw [pySplitOn_eq (by decide), hf]
    refine ⟨w.take j, ?_⟩
    show (natText p ++ ':' :: w).take k = natText p ++ ':' :: w.take j
    rw [hj, List.take_append]
    rfl

theorem addressOf_of_filter {t : Text} {i : Nat} {m0 : SearchMatch}
    (hfil : (pySplitOn sepNL t).filter
      (fun l => (natText i ++ ['.']).isPrefixOf (pyStrip l)) = [fmtLine i m0]) :
    addressOf t i = some ((m0.page : Nat) : Int) := by
  show (match (pySplitOn sepNL t).filter
      (fun l => (natText i ++ ['.']).isPrefixOf (pyStrip l)) with
    | [] => none
    | l :: _ =>
      match (pySplitOn pageTok l).tail with
      | [] => none
      | p :: _ => pyInt ((pySplitOn [':'] p).headD [])) = some ((m0.page : Nat) : Int)
  rw [hfil]
  show (match (pySplitOn pageTok (fmtLine i m0)).tail with
    | [] => none
    | p :: _ => pyInt ((pySplitOn [':'] p).headD [])) = some ((m0.page : Nat) : Int)
  rw [fmtLine_eq2 i m0]
  have hu : ∀ x ∈ natText i ++ ['.', ' '], x ≠ 'P' := by
    intro x hx
    rw [List.mem_append] at hx
    rcases hx with hx | hx
    · exact ne_of_isDigit_of_not (natText_all_digits i x hx) (by decide)
    · rw [List.mem_cons, List.mem_singleton] at hx
      rcases hx with hx | hx <;> (subst hx; decide)
  rw [pySplitOn_marker (by decide) (show pageTok.head? = some 'P' by rfl) hu]
  rw [List.tail_cons]
  cases hV : pySplitOn pageTok (natText m0.page ++ ':' ::
      (' ' :: '.' :: '.' :: '.' :: (m0.context ++ ['.', '.', '.']))) with
  | nil => exact absurd hV (pySplitOn_ne_nil _ _)
  | cons p rest =>
    show pyInt ((pySplitOn [':'] p).headD []) = some ((m0.page : Nat) : Int)
    obtain ⟨w2, hw2⟩ := pageChunk m0.page
      (' ' :: '.' :: '.' :: '.' :: (m0.context ++ ['.', '.', '.']))
    rw [hV] at hw2
    have hp : p = natText m0.page ++ ':' :: w2 := hw2
    rw [hp]
    rw [List.append_cons (natText m0.page) ':' w2]
    have hu2 : ∀ x ∈ natText m0.page, x ≠ ':' :=
      fun x hx => ne_of_isDigit_of_not (natText_all_digits _ x hx) (by decide)
    rw [pySplitOn_marker (by decide) (show ([':'] : Text).head? = some ':' by rfl) hu2]
    show pyInt (natText m0.page) = some ((m0.page : Nat) : Int)
    exact pyInt_natText m0.page

theorem addressOf_render {q f : Text} {ms : List SearchMatch} {i : Nat}
    (hq : noOcc q) (hf : noOcc f) (hctx : ∀ m ∈ ms, noOcc m.context)
    (hi1 : 1 ≤ i) (hi2 : i ≤ ms.length) :
    addressOf (renderSearch q f ms) i =
      some (((ms.getD (i - 1) default).page : Nat) : Int) := by
  have hms : ms ≠ [] := by
    intro h
    rw [h] at hi2
    simp at hi2
    omega
  refine addressOf_of_filter ?_
  rw [renderSearch_lines hms hq hf hctx]
  simp only [List.filter_cons, test_foundHeader, test_blank, Bool.false_eq_true, if_false]
  exact filter_numberLines_eq 1 i hi1 (by omega)

/-! Claim theorems. -/

/-- C1 (amended): for every SearchReport with at least one match in which
neither the query, nor the filename, nor any match context contains the
two-character line-separator sequence backslash-n, rendering the report and
then addressing any valid 1-indexed resultIndex i in [1, N] recovers exactly
the page number of the i-th match.  (The separator-freeness proviso is forced
by the counterexample below: a context may contain the separator pair, and a
fabricated result line inside it is then parsed instead of the real one.) -/
theorem c1_roundtrip_amended (q f : Text) (ms : List SearchMatch) (i : Nat)
    (hq : hasSub sepNL q = false) (hf : hasSub sepNL f = false)
    (hctx : ∀ m ∈ ms, hasSub sepNL m.context = false)
    (hi1 : 1 ≤ i) (hi2 : i ≤ ms.length) :
    addressOf (renderSearch q f ms) i =
      some (((ms.getD (i - 1) default).page : Nat) : Int) :=
  addressOf_render (noOcc_of_hasSub hq) (noOcc_of_hasSub hf)
    (fun m hm => noOcc_of_hasSub (hctx m hm)) hi1 hi2

/-- Witness for C1: on the one-page document of the specification scenario the
round trip recovers page 1 for result index 1. -/
theorem c1_roundtrip_witness :
    addressOf (renderSearch (("query").data) (("f.pdf").data)
      (searchDoc defaultConfig (("query").data)
        [("This is some text with the query term in it").data])) 1 = some 1 := by
  have h := c1_roundtrip_amended (("query").data) (("f.pdf").data)
    (searchDoc defaultConfig (("query").data)
      [("This is some text with the query term in it").data]) 1
    (by decide) (by decide) (by decide) (by decide) (by decide)
  rw [h]
  decide

/-- Page used to refute C1 as stated: its text contains the literal
backslash-n pair followed by a fabricated result line. -/
def cexPage : Text := ("q x").data ++ sepNL ++ ("2. Page 99: y q").data

/-- Counterexample to C1 as stated: searching this page for the letter q gives
two matches, both on page 1, yet addressing result 2 of the rendered report
parses the fabricated line embedded in the first context and returns page 99
instead of page 1. -/
theorem c1_counterexample :
    (searchDoc defaultConfig (("q").data) [cexPage]).length = 2 ∧
    ((searchDoc defaultConfig (("q").data) [cexPage]).getD 1 default).page = 1 ∧
    addressOf (renderSearch (("q").data) (("f.pdf").data)
      (searchDoc defaultConfig (("q").data) [cexPage])) 2 = some 99 := by
  refine ⟨by decide, by decide, by decide⟩

/-- C7: read_pdf_page is exactly read_pdf_text with the page number as both
ends of the range, for every page number and every document, success and
error outcomes alike (pdf_navigator.py line 204 delegates directly). -/
theorem c7_read_pdf_page_eq (f : Text) (pages : List Text) (n : Int) :
    read_pdf_page f pages n = read_pdf_text f pages n (some n) := rfl

/-- C3 (code bug): get_pdf_structure never succeeds on a decodable document,
because line 243 evaluates len(doc) after doc.close() at line 239; the
resulting ValueError(document closed) is caught and surfaced, so the
structure report promised by the claim is never produced. -/
theorem c3_structure_always_errors (fname : Text) (d : FitzDoc) :
    get_pdf_structure fname d = structureError (("document closed").data) := rfl

/-- C5 (amended): when both pages are inside [1, pageCount] and start > end,
readRange returns the InvalidRange error; when start or end is individually
out of range the corresponding out-of-range error takes precedence instead,
per the validation order of read_pdf_text lines 162-174. -/
theorem c5_invalid_range_amended (f : Text) (pages : List Text) (s e : Int)
    (h1 : 1 ≤ s) (h2 : s ≤ (pages.length : Int)) (h3 : 1 ≤ e)
    (h4 : e ≤ (pages.length : Int)) (h5 : e < s) :
    read_pdf_text f pages s (some e) = invalidRangeMsg s e := by
  simp only [read_pdf_text, read_pdf_text_exec, List.length_map]
  rw [if_neg (by simp only [Bool.or_eq_true, decide_eq_true_eq]; omega)]
  rw [if_neg (by
    simp only [Option.isSome_some, Option.getD_some, Bool.true_and, Bool.or_eq_true,
      decide_eq_true_eq]
    omega)]
  rw [if_pos (by simp only [Option.getD_some, decide_eq_true_eq]; omega)]
  rw [Option.getD_some]

/-- Witness for C5 (amended): a five-page document with start 3 and end 1
yields the InvalidRange message. -/
theorem c5_invalid_range_witness :
    read_pdf_text (("f.pdf").data) [("a").data, ("a").data, ("a").data, ("a").data, ("a").data]
      3 (some 1) = invalidRangeMsg 3 1 :=
  c5_invalid_range_amended (("f.pdf").data)
    [("a").data, ("a").data, ("a").data, ("a").data, ("a").data] 3 1
    (by decide) (by decide) (by decide) (by decide) (by decide)

/-- Counterexample to C5 as stated: on a five-page document, start 10 with
end 2 has start > end yet returns the start-out-of-range error, not the
InvalidRange error, because the bound check runs first. -/
theorem c5_counterexample :
    read_pdf_text (("f.pdf").data)
      [("a").data, ("a").data, ("a").data, ("a").data, ("a").data] 10 (some 2) =
      startOutOfRange 10 5 ∧
    startOutOfRange 10 5 ≠ invalidRangeMsg 10 2 := by
  refine ⟨by decide, by decide⟩

/-- Format predicate written from the words of claim C9: an optional leading
minus sign followed by one or more digits. -/
def claimIntFormatB (s : Text) : Bool :=
  isDigitsB s || (s.headD ' ' = '-' && isDigitsB (s.drop 1))

/-- C9 (amended): an integer argument is accepted as-is, and a string
argument is accepted exactly when its whitespace-stripped form consists of an
optional leading minus followed by one or more digits (safe_int strips the
string first, so surrounding whitespace is tolerated, contrary to the claim
as stated); the string 5 is treated as the integer 5. -/
theorem c9_safe_int_amended : (∀ i : Int, safe_int (PyVal.vint i) = Except.ok i) ∧
    (∀ s : Text, (∃ z, safe_int (PyVal.vstr s) = Except.ok z) ↔
      claimIntFormatB (pyStrip s) = true) ∧
    safe_int (PyVal.vstr (("5").data)) = Except.ok 5 := by
  have key : ∀ s : Text, safe_int (PyVal.vstr s) =
      (if (pyStrip s).isEmpty then Except.error (("cannot be empty").data)
       else if claimIntFormatB (pyStrip s) then Except.ok ((pyInt (pyStrip s)).getD 0)
       else Except.error (("must be a valid integer").data)) := fun s => rfl
  refine ⟨fun i => rfl, fun s => ?_, by rfl⟩
  rw [key]
  by_cases hemp : (pyStrip s).isEmpty
  · rw [if_pos hemp]
    constructor
    · rintro ⟨z, hz⟩
      exact Except.noConfusion hz
    · intro hfmt
      rw [List.isEmpty_iff] at hemp
      rw [hemp] at hfmt
      exact absurd hfmt (by decide)
  · rw [if_neg hemp]
    by_cases hfm : claimIntFormatB (pyStrip s) = true
    · rw [if_pos hfm]
      exact ⟨fun _ => hfm, fun _ => ⟨_, rfl⟩⟩
    · rw [if_neg hfm]
      constructor
      · rintro ⟨z, hz⟩
        exact Except.noConfusion hz
      · intro hfmt
        exact absurd hfmt hfm

/-- Counterexample to C9 as stated: the string with a leading space before 5
does not consist of an optional minus and digits, yet safe_int accepts it and
returns 5, because the implementation strips whitespace first. -/
theorem c9_counterexample :
    safe_int (PyVal.vstr ((" 5").data)) = Except.ok 5 ∧
    claimIntFormatB ((" 5").data) = false := ⟨rfl, rfl⟩

/-- C10: whenever the rendered search text contains the token Error or the
token No results found anywhere, including inside a successful match context,
search_and_open returns that rendered text unchanged and never parses a
result line or forwards to open_pdf_page (guard at server.py line 163). -/
theorem c10_guard_unchanged (cfg : SearchConfig) (fname q : Text) (pages : List Text)
    (i : Nat)
    (h : hasSub errorTok (search_pdf_text cfg fname q pages) = true ∨
      hasSub noResultsTok (search_pdf_text cfg fname q pages) = true) :
    search_and_open cfg fname q pages i =
      SAOResult.unchanged (search_pdf_text cfg fname q pages) := by
  simp only [search_and_open]
  rcases h with h | h <;> rw [h] <;> simp

/-- Witness for C10: searching for the word Error in a page containing it
succeeds, yet search_and_open passes the rendering through unchanged. -/
theorem c10_witness :
    search_and_open defaultConfig (("f.pdf").data) (("Error").data)
      [("An Error occurred in the run").data] 1 =
    SAOResult.unchanged (search_pdf_text defaultConfig (("f.pdf").data) (("Error").data)
      [("An Error occurred in the run").data]) :=
  c10_guard_unchanged defaultConfig (("f.pdf").data) (("Error").data)
    [("An Error occurred in the run").data] 1 (Or.inl (by decide))

/-! Cap invariants of the search loops (for claim C2). -/

theorem scanPageAux_length (cfg : SearchConfig) (q qlow text tlow : Text) (pageNo : Nat) :
    ∀ fuel start cnt, cnt ≤ 2 →
    (scanPageAux cfg q qlow text tlow pageNo start cnt fuel).length ≤ 3 - cnt := by
  intro fuel
  induction fuel with
  | zero => intro start cnt _; simp [scanPageAux]
  | succ m ih =>
    intro start cnt hcnt
    unfold scanPageAux
    split
    · simp
    · next pos heq =>
      split
      · next h3 =>
        simp only [List.length_singleton]
        omega
      · next h3 =>
        simp only [List.length_cons]
        have := ih (pos + 1) (cnt + 1) (by omega)
        omega

theorem scanPage_length (cfg : SearchConfig) (q t : Text) (pageNo : Nat) :
    (scanPage cfg q t pageNo).length ≤ 3 := by
  have := scanPageAux_length cfg q (pyLower q) t (pyLower t) pageNo (t.length + 1) 0 0 (by omega)
  exact this

theorem scanPageAux_page (cfg : SearchConfig) (q qlow text tlow : Text) (pageNo : Nat) :
    ∀ fuel start cnt m, m ∈ scanPageAux cfg q qlow text tlow pageNo start cnt fuel →
    m.page = pageNo := by
  intro fuel
  induction fuel with
  | zero => intro start cnt m hm; simp [scanPageAux] at hm
  | succ fm ih =>
    intro start cnt m hm
    unfold scanPageAux at hm
    split at hm
    · simp at hm
    · split at hm
      · rw [List.mem_singleton] at hm
        subst hm
        rfl
      · rw [List.mem_cons] at hm
        rcases hm with hm | hm
        · subst hm; rfl
        · exact ih _ _ m hm

theorem scanPage_page (cfg : SearchConfig) (q t : Text) (pageNo : Nat) {m : SearchMatch}
    (hm : m ∈ scanPage cfg q t pageNo) : m.page = pageNo :=
  scanPageAux_page cfg q (pyLower q) t (pyLower t) pageNo (t.length + 1) 0 0 m hm

theorem searchDocAux_countP (cfg : SearchConfig) (q : Text) : ∀ pages pageNo acc,
    (∀ m ∈ acc, m.page < pageNo) →
    (∀ p, (acc.countP (fun m => m.page == p)) ≤ 3) →
    ∀ p, ((searchDocAux cfg q pages pageNo acc).countP (fun m => m.page == p)) ≤ 3 := by
  intro pages
  induction pages with
  | nil => intro pageNo acc _ h2 p; exact h2 p
  | cons t rest ih =>
    intro pageNo acc h1 h2 p
    have hacc2 : ∀ p2, ((acc ++ scanPage cfg q t pageNo).countP (fun m => m.page == p2)) ≤ 3 := by
      intro p2
      rw [List.countP_append]
      by_cases hp2 : p2 = pageNo
      · subst hp2
        have hz : acc.countP (fun m => m.page == p2) = 0 := by
          rw [List.countP_eq_zero]
          intro m hm
          simp only [beq_iff_eq]
          exact Nat.ne_of_lt (h1 m hm)
        rw [hz]
        have := le_trans (List.countP_le_length (fun m => m.page == p2))
          (scanPage_length cfg q t p2)
        omega
      · have hz : (scanPage cfg q t pageNo).countP (fun m => m.page == p2) = 0 := by
          rw [List.countP_eq_zero]
          intro m hm
          simp only [beq_iff_eq]
          rw [scanPage_page cfg q t pageNo hm]
          exact fun he => hp2 he.symm
        rw [hz]
        have := h2 p2
        omega
    simp only [searchDocAux]
    split
    · exact hacc2 p
    · refine ih (pageNo + 1) _ ?_ hacc2 p
      intro m hm
      rw [List.mem_append] at hm
      rcases hm with hm | hm
      · exact Nat.lt_succ_of_lt (h1 m hm)
      · rw [scanPage_page cfg q t pageNo hm]
        exact Nat.lt_succ_self _

theorem searchDocAux_total (cfg : SearchConfig) (q : Text) : ∀ pages pageNo acc,
    acc.length < cfg.max_search_results →
    (searchDocAux cfg q pages pageNo acc).length ≤ cfg.max_search_results + 2 := by
  intro pages
  induction pages with
  | nil => intro pageNo acc h; show acc.length ≤ _; omega
  | cons t rest ih =>
    intro pageNo acc h
    have hsp := scanPage_length cfg q t pageNo
    simp only [searchDocAux]
    split
    · rw [List.length_append]
      omega
    · next hcap =>
      refine ih (pageNo + 1) _ ?_
      rw [List.length_append]
      rw [List.length_append] at hcap
      omega

/-- C2 (amended): every page contributes at most 3 matches; the total may
exceed maxSearchResults by up to 2 because the global cap is checked only at
page boundaries (line 124), so when maxSearchResults ≥ 1 the total is at most
maxSearchResults + 2, but it is not bounded by maxSearchResults itself. -/
theorem c2_caps_amended (cfg : SearchConfig) (q : Text) (pages : List Text) :
    (∀ p, ((searchDoc cfg q pages).countP (fun m => m.page == p)) ≤ 3) ∧
    (1 ≤ cfg.max_search_results →
      (searchDoc cfg q pages).length ≤ cfg.max_search_results + 2) := by
  constructor
  · exact fun p => searchDocAux_countP cfg q pages 1 [] (by simp) (by simp) p
  · intro hmax
    exact searchDocAux_total cfg q pages 1 [] (by simp; omega)

/-- Witness for C2 (amended) on the four-page overshoot document. -/
theorem c2_caps_witness :
    ((searchDoc defaultConfig (("a").data)
      [("aaa").data, ("aaa").data, ("aaa").data, ("aaa").data]).countP
        (fun m => m.page == 1)) ≤ 3 ∧
    (searchDoc defaultConfig (("a").data)
      [("aaa").data, ("aaa").data, ("aaa").data, ("aaa").data]).length ≤
      defaultConfig.max_search_results + 2 := by
  have h := c2_caps_amended defaultConfig (("a").data)
    [("aaa").data, ("aaa").data, ("aaa").data, ("aaa").data]
  exact ⟨h.1 1, h.2 (by decide)⟩

/-- Counterexample to C2 as stated: four pages of three matches each yield 12
matches even though maxSearchResults is 10, so the report exceeds the cap. -/
theorem c2_counterexample :
    (searchDoc defaultConfig (("a").data)
      [("aaa").data, ("aaa").data, ("aaa").data, ("aaa").data]).length = 12 ∧
    defaultConfig.max_search_results = 10 := ⟨by decide, rfl⟩

/-! Handle-release model lemmas (for claim C4). -/

/-- Success test on a page read. -/
def isOkPage : PageRead → Bool
  | .ok _ => true
  | .error _ => false

theorem searchExecAux_ok (cfg : SearchConfig) (q : Text) : ∀ pages pageNo acc,
    (∀ pr ∈ pages, isOkPage pr = true) →
    ∃ r, searchExecAux cfg q pages pageNo acc = Except.ok r := by
  intro pages
  induction pages with
  | nil => intro pageNo acc _; exact ⟨acc, rfl⟩
  | cons pr rest ih =>
    intro pageNo acc h
    cases pr with
    | error e => exact absurd (h _ (List.mem_cons_self _ _)) (by simp [isOkPage])
    | ok t =>
      simp only [searchExecAux]
      split
      · exact ⟨_, rfl⟩
      · exact ih (pageNo + 1) _ (fun pr2 hpr2 => h pr2 (List.mem_cons_of_mem _ hpr2))

theorem getD_ok {pages : List PageRead} (h : ∀ pr ∈ pages, isOkPage pr = true) (k : Nat) :
    ∃ t, pages.getD k (Except.ok []) = Except.ok t := by
  rw [List.getD_eq_getElem?_getD]
  cases hx : pages[k]? with
  | none => exact ⟨[], rfl⟩
  | some v =>
    cases v with
    | ok t => exact ⟨t, rfl⟩
    | error e =>
      have := h _ (List.getElem?_mem hx)
      simp [isOkPage] at this

theorem collectBlocks_ok {pages : List PageRead} (h : ∀ pr ∈ pages, isOkPage pr = true) :
    ∀ idxs, ∃ r, collectBlocks pages idxs = Except.ok r := by
  intro idxs
  induction idxs with
  | nil => exact ⟨[], rfl⟩
  | cons k rest ih =>
    obtain ⟨r, hr⟩ := ih
    obtain ⟨t, ht⟩ := getD_ok h k
    refine ⟨if (pyStrip t).isEmpty then r else pageBlock (k + 1) t :: r, ?_⟩
    simp only [collectBlocks, ht, hr]

/-- C4 (amended): the document handle is released before returning on every
non-exceptional exit path of search_pdf_text and read_pdf_text (success,
empty result, and every explicit validation error), that is whenever every
page extraction succeeds; an extraction exception instead reaches the except
handler with the handle still open, refuting the claim as stated. -/
theorem c4_release_amended (cfg : SearchConfig) (f q : Text) (pages : List PageRead)
    (s : Int) (e? : Option Int) (h : ∀ pr ∈ pages, isOkPage pr = true) :
    (search_pdf_text_exec cfg f q pages).2 = true ∧
    (read_pdf_text_exec f pages s e?).2 = true := by
  constructor
  · obtain ⟨r, hr⟩ := searchExecAux_ok cfg q pages 1 [] h
    simp [search_pdf_text_exec, hr]
  · simp only [read_pdf_text_exec]
    split
    · rfl
    · split
      · rfl
      · split
        · rfl
        · obtain ⟨r, hr⟩ := collectBlocks_ok h
            (List.range' (s.toNat - 1) (((e?.getD (pages.length : Int)).toNat) - (s.toNat - 1)))
          rw [hr]
          split
          · next heq => exact Except.noConfusion heq
          · split <;> rfl

/-- Witness for C4 (amended): with one successfully extracted page both
operations report the handle closed. -/
theorem c4_release_witness :
    (search_pdf_text_exec defaultConfig (("f.pdf").data) (("q").data)
      [Except.ok (("abc").data)]).2 = true ∧
    (read_pdf_text_exec (("f.pdf").data) [Except.ok (("abc").data)] 1 none).2 = true :=
  c4_release_amended defaultConfig (("f.pdf").data) (("q").data)
    [Except.ok (("abc").data)] 1 none (by decide)

/-- Counterexample to C4 as stated: a page extraction that raises reaches the
except handler of search_pdf_text (line 139) without passing the close at
line 127, so the handle is not released on that exceptional exit path. -/
theorem c4_counterexample :
    (search_pdf_text_exec defaultConfig (("f.pdf").data) (("q").data)
      [Except.error (("boom").data)]).2 = false := rfl

/-! Context-window lemmas (for claim C8). -/

theorem isPySpace_pyLowerChar (c : Char) : isPySpace (pyLowerChar c) = isPySpace c := by
  unfold pyLowerChar
  split
  · next h =>
    rw [Bool.and_eq_true, decide_eq_true_eq, decide_eq_true_eq] at h
    have ht : (Char.ofNat (c.toNat + 32)).toNat = c.toNat + 32 :=
      toNat_ofNat_of_valid (by omega)
    have h1 : isPySpace (Char.ofNat (c.toNat + 32)) = false := by
      simp only [isPySpace, Bool.or_eq_false_iff, decide_eq_false_iff_not,
        Bool.and_eq_false_iff, ht]
      omega
    have h2 : isPySpace c = false := by
      simp only [isPySpace, Bool.or_eq_false_iff, decide_eq_false_iff_not,
        Bool.and_eq_false_iff]
      omega
    rw [h1, h2]
  · rfl

theorem nonws_of_lower_eq : ∀ u v : Text, u.map pyLowerChar = v.map pyLowerChar →
    (∀ c ∈ v, isPySpace c = false) → ∀ c ∈ u, isPySpace c = false := by
  intro u
  induction u with
  | nil => intro v _ _ c hc; simp at hc
  | cons a u2 ih =>
    intro v h hv c hc
    cases v with
    | nil => simp at h
    | cons b v2 =>
      simp only [List.map_cons, List.cons.injEq] at h
      rw [List.mem_cons] at hc
      rcases hc with hc | hc
      · subst hc
        have hb := hv b (List.mem_cons_self _ _)
        rw [← isPySpace_pyLowerChar c, h.1, isPySpace_pyLowerChar b]
        exact hb
      · exact ih v2 h.2 (fun x hx => hv x (List.mem_cons_of_mem _ hx)) c hc

theorem normalizeCtx_eq_self {s : Text} (hne : s ≠ [])
    (h : ∀ c ∈ s, isPySpace c = false) : normalizeCtx s = s := by
  unfold normalizeCtx
  rw [pyStrip_eq_self_of_all h]
  have hsplit : pySplitWs s = [s] := by
    cases s with
    | nil => exact absurd rfl hne
    | cons c r =>
      show pySplitWsF ((c :: r).length + 1) (c :: r) = [c :: r]
      unfold pySplitWsF
      rw [dropWhile_eq_self_of_head (fun d hd => by
        injection hd with h2
        exact h2 ▸ h c (List.mem_cons_self _ _))]
      show List.takeWhile (fun x => !isPySpace x) (c :: r) ::
        pySplitWsF (c :: r).length (List.dropWhile (fun x => !isPySpace x) (c :: r)) = [c :: r]
      rw [List.takeWhile_eq_self_iff.mpr (fun x hx => by simp [h x hx])]
      rw [List.dropWhile_eq_nil_iff.mpr (fun x hx => by simp [h x hx])]
      rfl
  rw [hsplit]
  rfl

theorem findFrom_some_hit {needle hay : Text} {start pos : Nat}
    (h : findFrom needle hay start = some pos) :
    needle.isPrefixOf (hay.drop pos) = true := by
  unfold findFrom at h
  split at h
  · exact Option.noConfusion h
  · exact (findFromAux_some _ _ _ h).2.1

theorem scanPageAux_mem (cfg : SearchConfig) (q qlow text tlow : Text) (pageNo : Nat) :
    ∀ fuel start cnt m, m ∈ scanPageAux cfg q qlow text tlow pageNo start cnt fuel →
    ∃ pos, m = ⟨pageNo, mkContext cfg text pos q.length, pos⟩ ∧
      qlow.isPrefixOf (tlow.drop pos) = true := by
  intro fuel
  induction fuel with
  | zero => intro start cnt m hm; simp [scanPageAux] at hm
  | succ fm ih =>
    intro start cnt m hm
    unfold scanPageAux at hm
    split at hm
    · simp at hm
    · next pos heq =>
      split at hm
      · rw [List.mem_singleton] at hm
        exact ⟨pos, hm, findFrom_some_hit heq⟩
      · rw [List.mem_cons] at hm
        rcases hm with hm | hm
        · exact ⟨pos, hm, findFrom_some_hit heq⟩
        · exact ih _ _ m hm

/-- C8 (amended): with contextChars 0, every match on a page whose query is
non-empty and contains no whitespace has context exactly equal to the matched
substring (the window never shrinks below the match), in particular the
context is non-empty; when the query contains whitespace the normalisation
step can strip the matched text away entirely, refuting the claim as stated. -/
theorem c8_context_amended (q t : Text) (pageNo maxRes : Nat) (hq : q ≠ [])
    (hws : ∀ c ∈ q, isPySpace c = false) :
    ∀ m ∈ scanPage ⟨0, maxRes⟩ q t pageNo,
      m.context = (t.drop m.position).take q.length ∧ m.context ≠ [] := by
  intro m hm
  obtain ⟨pos, hme, hpre⟩ :=
    scanPageAux_mem ⟨0, maxRes⟩ q (pyLower q) t (pyLower t) pageNo (t.length + 1) 0 0 m hm
  have hpre2 := hpre
  rw [List.isPrefixOf_iff_prefix] at hpre2
  have hlen : pos + q.length ≤ t.length := by
    have hl := hpre2.length_le
    simp only [pyLower, List.length_drop, List.length_map] at hl
    have hq1 : 0 < q.length := List.length_pos.mpr hq
    omega
  have hslice : mkContext ⟨0, maxRes⟩ t pos q.length = (t.drop pos).take q.length := by
    unfold mkContext
    have hz : (0 : Nat) / 2 = 0 := rfl
    simp only [hz, Nat.sub_zero, Nat.add_zero]
    have hmin : min t.length (pos + q.length) = pos + q.length := min_eq_right hlen
    rw [hmin]
    have harith : pos + q.length - pos = q.length := by omega
    rw [harith]
    have hslen : ((t.drop pos).take q.length).length = q.length := by
      rw [List.length_take, List.length_drop]
      omega
    have hmap : ((t.drop pos).take q.length).map pyLowerChar = q.map pyLowerChar := by
      rw [List.map_take, List.map_drop]
      obtain ⟨tl, htl⟩ := hpre2
      show ((pyLower t).drop pos).take q.length = pyLower q
      rw [show q.length = (pyLower q).length by rw [pyLower, List.length_map]]
      rw [← htl]
      exact List.take_left _ _
    have hnws : ∀ c ∈ (t.drop pos).take q.length, isPySpace c = false :=
      nonws_of_lower_eq _ q hmap hws
    refine normalizeCtx_eq_self ?_ hnws
    intro he
    rw [he] at hslen
    simp at hslen
    exact hq (List.length_eq_zero.mp hslen.symm)
  have hnenil : (t.drop pos).take q.length ≠ [] := by
    intro he
    have hslen : ((t.drop pos).take q.length).length = q.length := by
      rw [List.length_take, List.length_drop]
      omega
    rw [he] at hslen
    simp at hslen
    exact hq (List.length_eq_zero.mp hslen.symm)
  subst hme
  exact ⟨hslice, by rw [show (SearchMatch.mk pageNo (mkContext ⟨0, maxRes⟩ t pos q.length)
    pos).context = mkContext ⟨0, maxRes⟩ t pos q.length from rfl, hslice]; exact hnenil⟩

/-- Witness for C8 (amended): searching for the letter b in the page a b with
contextChars 0 yields the context b, the matched substring itself. -/
theorem c8_context_witness :
    (⟨1, ("b").data, 2⟩ : SearchMatch).context =
      ((("a b").data.drop (⟨1, ("b").data, 2⟩ : SearchMatch).position).take
        (("b").data.length) : Text) ∧
    (⟨1, ("b").data, 2⟩ : SearchMatch).context ≠ [] :=
  c8_context_amended (("b").data) (("a b").data) 1 10 (by decide) (by decide)
    ⟨1, ("b").data, 2⟩ (by decide)

/-- Counterexample to C8 as stated: with contextChars 0 a query consisting of
a single space matches inside the page a b, but the strip-and-normalise step
empties the context, so the context is empty and does not contain the matched
substring. -/
theorem c8_counterexample :
    scanPage ⟨0, 10⟩ [' '] (("a b").data) 1 = [⟨1, [], 1⟩] ∧
    hasSub [' '] ([] : Text) = false := ⟨by decide, by decide⟩

/-! Spec-side rendering (for claim C6). -/

/-- Modelled from the spec, section 6: the exact header line of the rendered
report. -/
def specHeaderLine (q f : Text) (n : Nat) : Text :=
  ("Found ").data ++ natText n ++ (" results for ").data ++ [squote] ++ q ++ [squote] ++
    (" in ").data ++ f ++ (":").data

/-- Modelled from the spec, section 6: one numbered result line. -/
def specResultLine (i : Nat) (m : SearchMatch) : Text :=
  natText i ++ (". Page ").data ++ natText m.page ++ (": ...").data ++ m.context ++ ("...").data

/-- Modelled from the spec, section 6: the numbered result lines, 1-indexed. -/
def specResultLines : Nat → List SearchMatch → List Text
  | _, [] => []
  | i, m :: r => specResultLine i m :: specResultLines (i + 1) r

/-- Modelled from the spec, section 6: the exact empty-result text, with no
trailing colon and no result lines. -/
def specNoResults (q f : Text) : Text :=
  ("No results found for ").data ++ [squote] ++ q ++ [squote] ++ (" in ").data ++ f

/-- Newline character (code point 10): the real line break of the exact
multi-line block shown in spec section 6. -/
def lineBreak : Char := Char.ofNat 10

/-- Modelled from the spec, section 6: the rendered report is the header
line, a blank line, then one line per match, with the lines joined by the
given separator; an empty report renders as the no-results text and is not
an error.  The spec means real line breaks, so its exact multi-line format is
this definition at the separator [lineBreak]; the code instead joins the same
lines with the literal two-character pair sepNL (its string literals carry
doubled backslashes), which is the amended reading proved below. -/
def renderLinesJoined (sep2 : Text) (q f : Text) (ms : List SearchMatch) : Text :=
  if ms.isEmpty then specNoResults q f
  else joinSep sep2 (specHeaderLine q f ms.length :: ([] : Text) :: specResultLines 1 ms)

theorem numberLines_eq_spec : ∀ (k : Nat) (ms : List SearchMatch),
    numberLines k ms = specResultLines k ms := by
  intro k ms
  induction ms generalizing k with
  | nil => rfl
  | cons m r ih =>
    show fmtLine k m :: numberLines (k + 1) r = specResultLine k m :: specResultLines (k + 1) r
    rw [ih (k + 1)]
    congr 1
    unfold fmtLine specResultLine pageTok
    simp only [List.append_assoc]
    rfl

/-- C6 (amended): the rendered report consists of exactly the header line,
a blank line, and one numbered result line per match of the spec format, and
an empty search renders exactly the no-results text with no trailing colon
and no result lines; however the code joins those lines with the literal
two-character backslash-n pair, not with the real line breaks of the exact
multi-line block in spec section 6, so the rendering equals the spec line
structure at separator sepNL, not at a line break (renderSearch is translated
from search_pdf_text lines 129-137, renderLinesJoined from the words of the
spec). -/
theorem c6_render_format (q f : Text) (ms : List SearchMatch) :
    renderSearch q f ms = renderLinesJoined sepNL q f ms := by
  unfold renderSearch renderLinesJoined
  by_cases h : ms.isEmpty
  · rw [if_pos h, if_pos h]
    rfl
  · rw [if_neg h, if_neg h]
    rw [joinSep_header]
    rw [numberLines_eq_spec]
    have hh : foundHeader q f ms.length = specHeaderLine q f ms.length := by
      unfold foundHeader specHeaderLine
      simp only [List.append_assoc]
    rw [hh]

/-- Counterexample to C6 as stated: on the specification scenario document
the rendered report is not the exact multi-line text of spec section 6 (the
same lines joined by real line breaks); indeed no newline character occurs
anywhere in the rendering, while the literal backslash-n pair does. -/
theorem c6_counterexample :
    renderSearch (("query").data) (("f.pdf").data)
      (searchDoc defaultConfig (("query").data)
        [("This is some text with the query term in it").data]) ≠
    renderLinesJoined [lineBreak] (("query").data) (("f.pdf").data)
      (searchDoc defaultConfig (("query").data)
        [("This is some text with the query term in it").data]) ∧
    lineBreak ∉ renderSearch (("query").data) (("f.pdf").data)
      (searchDoc defaultConfig (("query").data)
        [("This is some text with the query term in it").data]) ∧
    hasSub sepNL (renderSearch (("query").data) (("f.pdf").data)
      (searchDoc defaultConfig (("query").data)
        [("This is some text with the query term in it").data])) = true := by
  refine ⟨by decide, by decide, by decide⟩
